import Mathlib

/-
Verification of the crossword CSP engine in `lec3_crossword/generate.py`
(class `CrosswordCreator`).

The embedding models Python semantics explicitly:
* a Python `set`/`dict` is modelled as a duplicate-free list (iteration order is
  the list order; CPython's set iteration order is unspecified, and no claim
  below depends on the particular order chosen);
* mutating a set while a `for` loop iterates over it makes the very next call
  to the iterator raise `RuntimeError: Set changed size during iteration`
  (CPython checks the size change before checking exhaustion), which matters
  because `enforce_node_consistency` and `revise` both do exactly that;
* `s[i]` on a string raises `IndexError` when `i` is out of range;
* unpacking `None` as a pair raises `TypeError`;
* `values.append[val]` (note: square brackets, in `consistent`) subscripts the
  bound `append` method and raises `TypeError`;
* `raise NotImplementedError` (the three unimplemented search stubs).

Raised exceptions are modelled with `Except PyErr`; functions that mutate
`self.domains` return the final domain store alongside the outcome, so the
state at the moment an exception propagates is visible to the theorems.
-/

inductive PyErr where
  | runtimeError
  | typeError
  | indexError
  | notImplementedError
deriving DecidableEq

inductive Direction where
  | ACROSS
  | DOWN
deriving DecidableEq

/-- Modelled from the spec: `crossword.py` (the Puzzle Model built by the
grid/vocabulary loader) is not among the sources; per the spec a slot
(variable) is identified by `(row, col, orientation, length)`. Field names
follow `Variable.__init__(self, i, j, direction, length)` as used by
`generate.py` (e.g. `variable.i`, `variable.direction`, `var.length`). -/
structure Variable where
  i : Nat
  j : Nat
  direction : Direction
  length : Nat
deriving DecidableEq

/-- Modelled from the spec: the Puzzle Model exposes the set of slots, the
vocabulary, and the overlap table; for an ordered pair of distinct crossing
slots the table holds the character indices `(i, j)`, and for non-crossing
pairs the overlap is absent. The field `vars` stands for the Python
attribute `crossword.variables` (`variables` is a reserved word in Lean). -/
structure Crossword where
  vars : List Variable
  words : List String
  overlaps : Variable → Variable → Option (Nat × Nat)

/-- Modelled from the spec: the neighbors of a slot are the other slots that
cross it, i.e. those whose overlap with it is present. -/
def Crossword.neighbors (cw : Crossword) (v : Variable) : List Variable :=
  cw.vars.filter (fun u => decide (u ≠ v) && (cw.overlaps v u).isSome)

/-- `self.domains`: a dict mapping each variable to its set of candidate
words, modelled as an association list. -/
abbrev Domains := List (Variable × List String)

/-- A (possibly partial) assignment: a dict mapping variables to words. -/
abbrev Assignment := List (Variable × String)

abbrev Arc := Variable × Variable

/-- `self.domains[x]` (all claims only read keys that are present; a missing
key, which would raise `KeyError` in Python, is given the default `[]`). -/
def domGet (doms : Domains) (x : Variable) : List String :=
  match doms with
  | [] => []
  | p :: rest => if p.1 = x then p.2 else domGet rest x

/-- In-place mutation of the set `self.domains[x]`: every entry keyed by `x`
now holds the new set. -/
def domUpdate (doms : Domains) (x : Variable) (d : List String) : Domains :=
  match doms with
  | [] => []
  | p :: rest => (if p.1 = x then (x, d) else p) :: domUpdate rest x d

/-- `assignment[x]` as an optional lookup (`x in assignment` is
`(assocGet? a x).isSome`). -/
def assocGet? (a : Assignment) (x : Variable) : Option String :=
  match a with
  | [] => none
  | p :: rest => if p.1 = x then some p.2 else assocGet? rest x

/-- Python string indexing `s[i]`: `IndexError` when out of range. -/
def pyStrIndex (s : String) (i : Nat) : Except PyErr Char :=
  match s.toList.get? i with
  | some c => .ok c
  | none => .error .indexError

/-- `CrosswordCreator.__init__`: `self.domains = {var: self.crossword.words.copy()
for var in self.crossword.variables}`. -/
def initDomains (cw : Crossword) : Domains :=
  cw.vars.map (fun v => (v, cw.words))

/-- The loop body of `enforce_node_consistency` for one variable:
`for value in self.domains[var]: if len(value) != var.length:
self.domains[var].remove(value)`. The first argument list is the iterator,
the second the live set. After a `remove`, the next call to the iterator
raises `RuntimeError` (set changed size during iteration), so at most one
word is ever removed. -/
def encVar (len : Nat) : List String → List String → (Except PyErr Unit) × List String
  | [], dom => (.ok (), dom)
  | w :: rest, dom =>
    if w.length ≠ len then (.error .runtimeError, dom.erase w)
    else encVar len rest dom

/-- The outer loop of `enforce_node_consistency` over `self.crossword.variables`. -/
def encVars : List Variable → Domains → (Except PyErr Unit) × Domains
  | [], doms => (.ok (), doms)
  | v :: rest, doms =>
    match encVar v.length (domGet doms v) (domGet doms v) with
    | (.error e, d) => (.error e, domUpdate doms v d)
    | (.ok _, d) => encVars rest (domUpdate doms v d)

/-- `CrosswordCreator.enforce_node_consistency` (generate.py lines 98-107). -/
def enforce_node_consistency (cw : Crossword) (doms : Domains) :
    (Except PyErr Unit) × Domains :=
  encVars cw.vars doms

/-- The inner loop of `revise`: `for yval in self.domains[y]: if xval[i] ==
yval[j]: satisfied = True; break`; the result is the final value of
`satisfied`, or the exception raised by an out-of-range index. -/
def satisfiedLoop (xval : String) (i j : Nat) : List String → Except PyErr Bool
  | [] => .ok false
  | yval :: rest =>
    match pyStrIndex xval i with
    | .error e => .error e
    | .ok a =>
      match pyStrIndex yval j with
      | .error e => .error e
      | .ok b => if a = b then .ok true else satisfiedLoop xval i j rest

/-- The outer loop of `revise`: `for xval in self.domains[x]`, removing the
unsatisfied `xval` from the live set (second list argument). As in
`enforce_node_consistency`, removing from the set being iterated makes the
next iterator call raise `RuntimeError`, so the loop never survives a
removal and `revised = True` is never returned. -/
def reviseLoop (i j : Nat) (ydom : List String) :
    List String → List String → (Except PyErr Bool) × List String
  | [], xdom => (.ok false, xdom)
  | w :: rest, xdom =>
    match satisfiedLoop w i j ydom with
    | .error e => (.error e, xdom)
    | .ok true => reviseLoop i j ydom rest xdom
    | .ok false => (.error .runtimeError, xdom.erase w)

/-- `CrosswordCreator.revise` (generate.py lines 110-133). -/
def revise (cw : Crossword) (x y : Variable) (doms : Domains) :
    (Except PyErr Bool) × Domains :=
  match cw.overlaps x y with
  | none => (.ok false, doms)
  | some (i, j) =>
    let r := reviseLoop i j (domGet doms y) (domGet doms x) (domGet doms x)
    (r.1, domUpdate doms x r.2)

/-- Arc collection in `ac3` for one variable: `for neigbor_var in neighbors:
...`. The guard `((neigbor_var, var) or (var, neigbor_var)) in arcs`
evaluates the `or` first; a non-empty tuple is truthy, so only
`(neigbor_var, var) in arcs` is actually tested. -/
def addNeighborArcs (v : Variable) : List Variable → List Arc → List Arc
  | [], arcs => arcs
  | n :: ns, arcs =>
    addNeighborArcs v ns (if (n, v) ∈ arcs then arcs else arcs ++ [(n, v)])

/-- The `if arcs == None` initialisation of `ac3`: visit every variable and
append the arcs from its neighbors. -/
def buildArcsAux (cw : Crossword) : List Variable → List Arc → List Arc
  | [], arcs => arcs
  | v :: rest, arcs => buildArcsAux cw rest (addNeighborArcs v (cw.neighbors v) arcs)

/-- The `while len(arcs) != 0` loop of `ac3`, with explicit fuel. Each
iteration dequeues `(x, y) = arcs.pop(0)`, calls `revise`, and on a reported
revision either fails (empty domain) or re-enqueues `(z, x)` for the
neighbors `z != y`. The fuel is an upper bound on the number of iterations;
`ac3Loop_total` below shows `arcs.length + 1` always suffices, so the
`none` (out of fuel) answer is never actually produced. -/
def ac3Loop (cw : Crossword) :
    Nat → List Arc → Domains → Option ((Except PyErr Bool) × Domains × List Arc)
  | 0, _, _ => none
  | _ + 1, [], doms => some (.ok true, doms, [])
  | fuel + 1, (x, y) :: rest, doms =>
    match revise cw x y doms with
    | (.error e, doms1) => some (.error e, doms1, rest)
    | (.ok true, doms1) =>
      if (domGet doms1 x).length = 0 then some (.ok false, doms1, rest)
      else
        ac3Loop cw fuel
          (rest ++ ((cw.neighbors x).filter (fun z => decide (z ≠ y))).map (fun z => (z, x)))
          doms1
    | (.ok false, doms1) => ac3Loop cw fuel rest doms1

/-- `CrosswordCreator.ac3` (generate.py lines 136-162): outcome, final
domain store, and the final contents of the (caller-owned, mutated in place)
`arcs` list. -/
def ac3 (cw : Crossword) (arcs : Option (List Arc)) (doms : Domains) :
    Option ((Except PyErr Bool) × Domains × List Arc) :=
  let initArcs := match arcs with
    | none => buildArcsAux cw cw.vars []
    | some a => a
  ac3Loop cw (initArcs.length + 1) initArcs doms

/-- `val is None` for a word: an assignment built by this program maps
variables to words (strings), and a string is never Python's `None`. -/
def pyIsNone (_val : String) : Bool := false

/-- The loop of `assignment_complete`: `for val in assignment.values():
if val is None: return False`. -/
def acValuesLoop : List String → Bool
  | [] => true
  | val :: rest => if pyIsNone val then false else acValuesLoop rest

/-- `CrosswordCreator.assignment_complete` (generate.py lines 165-173): it
only scans the values present in the dict for `None`; it never consults
`self.crossword.variables`. -/
def assignment_complete (assignment : Assignment) : Bool :=
  acValuesLoop (assignment.map Prod.snd)

/-- The neighbor-conflict loop of `consistent`: `for neighbor_var in
neighbors: if neighbor_var in assignment: (i, j) = self.crossword.overlaps[
var, neighbor_var]; if val[i] != assignment[neighbor_var][j]: return False`.
Unpacking an absent overlap (`None`) raises `TypeError`. -/
def checkNeighbors (cw : Crossword) (assignment : Assignment) (val : String)
    (var : Variable) : List Variable → Except PyErr Bool
  | [] => .ok true
  | n :: ns =>
    match assocGet? assignment n with
    | none => checkNeighbors cw assignment val var ns
    | some nval =>
      match cw.overlaps var n with
      | none => .error .typeError
      | some (i, j) =>
        match pyStrIndex val i with
        | .error e => .error e
        | .ok a =>
          match pyStrIndex nval j with
          | .error e => .error e
          | .ok b =>
            if a ≠ b then .ok false
            else checkNeighbors cw assignment val var ns

/-- `CrosswordCreator.consistent` (generate.py lines 176-193). The final
statement of the loop body is `values.append[val]` — square brackets, which
subscript the bound method and raise `TypeError` — so the loop never reaches
a second item: the first item either trips an explicit `return False`
(against `values = []`, so the duplicate test can never fire), raises, or
falls into the `TypeError`. An empty assignment skips the loop and the
function falls off the end, returning Python's `None` (modelled `.ok none`),
not `True`. -/
def consistent (cw : Crossword) (assignment : Assignment) :
    Except PyErr (Option Bool) :=
  match assignment with
  | [] => .ok none
  | (var, val) :: _ =>
    if val ∈ ([] : List String) then .ok (some false)
    else if val.length ≠ var.length then .ok (some false)
    else
      match checkNeighbors cw assignment val var (cw.neighbors var) with
      | .error e => .error e
      | .ok false => .ok (some false)
      | .ok true => .error .typeError

/-- `CrosswordCreator.backtrack` (generate.py lines 215-224): the body is
`raise NotImplementedError`. -/
def backtrack (_cw : Crossword) (_assignment : Assignment) (doms : Domains) :
    (Except PyErr (Option Assignment)) × Domains :=
  (.error .notImplementedError, doms)

/-- `CrosswordCreator.solve` (generate.py lines 89-95): enforce node
consistency, run `ac3` (its Boolean result is discarded), then call
`backtrack` on the empty assignment; exceptions propagate. -/
def solve (cw : Crossword) : Option ((Except PyErr (Option Assignment)) × Domains) :=
  match enforce_node_consistency cw (initDomains cw) with
  | (.error e, d1) => some (.error e, d1)
  | (.ok _, d1) =>
    match ac3 cw none d1 with
    | none => none
    | some (.error e, d2, _) => some (.error e, d2)
    | some (.ok _, d2, _) => some (backtrack cw [] d2)

/-! ### Concrete puzzle instances used by the theorems below -/

/-- A 1×3 grid with a single ACROSS slot of length 3 (spec scenario 1). -/
def v1 : Variable := ⟨0, 0, .ACROSS, 3⟩

def cw1 : Crossword := { vars := [v1], words := ["cat"], overlaps := fun _ _ => none }

/-- A single slot of length 4 with vocabulary {"cat", "dogs", "bird"}
(spec scenario 4). -/
def v4 : Variable := ⟨0, 0, .ACROSS, 4⟩

def cw4 : Crossword :=
  { vars := [v4], words := ["cat", "dogs", "bird"], overlaps := fun _ _ => none }

/-- Two crossing slots sharing their first cell. -/
def va : Variable := ⟨0, 0, .ACROSS, 2⟩

def vd : Variable := ⟨0, 0, .DOWN, 2⟩

def cw2 : Crossword :=
  { vars := [va, vd], words := ["ab", "cd"],
    overlaps := fun x y =>
      if (x = va ∧ y = vd) ∨ (x = vd ∧ y = va) then some (0, 0) else none }

/-- Domains for `cw2` with no compatible pair at the crossing. -/
def domsBad : Domains := [(va, ["ab"]), (vd, ["cd"])]

/-- Domains for `cw2` that are already arc consistent. -/
def domsOK : Domains := [(va, ["ab"]), (vd, ["ac"])]

/-! ### Helper lemmas about the domain store -/

theorem domGet_update_ne (doms : Domains) (x : Variable) (d : List String)
    (v : Variable) (h : v ≠ x) : domGet (domUpdate doms x d) v = domGet doms v := by
  induction doms with
  | nil => rfl
  | cons p rest ih =>
    have hxv : ¬ x = v := fun hh => h hh.symm
    by_cases hp : p.1 = x
    · simp [domUpdate, domGet, hp, hxv, ih]
    · by_cases hv : p.1 = v
      · simp [domUpdate, domGet, hp, hv, h]
      · simp [domUpdate, domGet, hp, hv, ih]

theorem domGet_update_self_sub (doms : Domains) (x : Variable) (d : List String)
    (h : d ⊆ domGet doms x) : domGet (domUpdate doms x d) x ⊆ domGet doms x := by
  induction doms with
  | nil => simp [domUpdate, domGet]
  | cons p rest ih =>
    by_cases hp : p.1 = x
    · simp only [domUpdate, domGet, if_pos hp, if_pos rfl]
      simpa [domGet, if_pos hp] using h
    · simp only [domUpdate, domGet, if_neg hp]
      simp only [domGet, if_neg hp] at h
      exact ih h

theorem domGet_update_sub (doms : Domains) (x : Variable) (d : List String)
    (h : d ⊆ domGet doms x) (v : Variable) :
    domGet (domUpdate doms x d) v ⊆ domGet doms v := by
  by_cases hv : v = x
  · subst hv
    exact domGet_update_self_sub doms v d h
  · rw [domGet_update_ne doms x d v hv]
    exact List.Subset.refl _

theorem domGet_update_get_self (doms : Domains) (x : Variable) (v : Variable) :
    domGet (domUpdate doms x (domGet doms x)) v = domGet doms v := by
  by_cases hv : v = x
  · subst hv
    induction doms with
    | nil => rfl
    | cons p rest ih =>
      by_cases hp : p.1 = v
      · simp [domUpdate, domGet, hp]
      · simp [domUpdate, domGet, hp, ih]
  · exact domGet_update_ne doms x _ v hv

/-! ### Helper lemmas about `enforce_node_consistency` -/

theorem encVar_subset (len : Nat) :
    ∀ (iter dom : List String), (encVar len iter dom).2 ⊆ dom := by
  intro iter
  induction iter with
  | nil =>
    intro dom
    simp [encVar]
  | cons w rest ih =>
    intro dom
    simp only [encVar]
    split
    · exact List.erase_subset _ _
    · exact ih dom

theorem encVars_subset :
    ∀ (vs : List Variable) (doms : Domains) (v : Variable),
      domGet (encVars vs doms).2 v ⊆ domGet doms v := by
  intro vs
  induction vs with
  | nil =>
    intro doms v
    simp [encVars]
  | cons u rest ih =>
    intro doms v
    have hsub : (encVar u.length (domGet doms u) (domGet doms u)).2 ⊆ domGet doms u :=
      encVar_subset u.length _ _
    simp only [encVars]
    cases h : encVar u.length (domGet doms u) (domGet doms u) with
    | mk r d =>
      have hd : d ⊆ domGet doms u := by
        rw [h] at hsub
        exact hsub
      cases r with
      | error e => exact domGet_update_sub doms u d hd v
      | ok _ =>
        exact (ih (domUpdate doms u d) v).trans (domGet_update_sub doms u d hd v)

/-! ### Helper lemmas about `revise` -/

theorem reviseLoop_subset (i j : Nat) (ydom : List String) :
    ∀ (iter xdom : List String), (reviseLoop i j ydom iter xdom).2 ⊆ xdom := by
  intro iter
  induction iter with
  | nil =>
    intro xdom
    simp [reviseLoop]
  | cons w rest ih =>
    intro xdom
    cases hs : satisfiedLoop w i j ydom with
    | error e => simp [reviseLoop, hs]
    | ok b =>
      cases b with
      | true => simpa [reviseLoop, hs] using ih xdom
      | false =>
        simp only [reviseLoop, hs]
        exact List.erase_subset _ _

theorem revise_subset (cw : Crossword) (x y : Variable) (doms : Domains) (v : Variable) :
    domGet (revise cw x y doms).2 v ⊆ domGet doms v := by
  cases ho : cw.overlaps x y with
  | none =>
    simp only [revise, ho]
    exact List.Subset.refl _
  | some ij =>
    cases ij with
    | mk i j =>
      simp only [revise, ho]
      exact domGet_update_sub doms x _ (reviseLoop_subset i j _ _ _) v

theorem reviseLoop_ok (i j : Nat) (ydom : List String) :
    ∀ (iter xdom xdom' : List String) (b : Bool),
      reviseLoop i j ydom iter xdom = (.ok b, xdom') → b = false ∧ xdom' = xdom := by
  intro iter
  induction iter with
  | nil =>
    intro xdom xdom' b h
    simp only [reviseLoop, Prod.mk.injEq, Except.ok.injEq] at h
    exact ⟨h.1.symm, h.2.symm⟩
  | cons w rest ih =>
    intro xdom xdom' b h
    cases hs : satisfiedLoop w i j ydom with
    | error e => simp [reviseLoop, hs] at h
    | ok sb =>
      cases sb with
      | true =>
        simp only [reviseLoop, hs] at h
        exact ih xdom xdom' b h
      | false => simp [reviseLoop, hs] at h

theorem revise_ok (cw : Crossword) (x y : Variable) (doms doms' : Domains) (b : Bool)
    (h : revise cw x y doms = (.ok b, doms')) :
    b = false ∧ ∀ v, domGet doms' v = domGet doms v := by
  cases ho : cw.overlaps x y with
  | none =>
    simp only [revise, ho, Prod.mk.injEq, Except.ok.injEq] at h
    exact ⟨h.1.symm, fun v => by rw [← h.2]⟩
  | some ij =>
    cases ij with
    | mk i j =>
      simp only [revise, ho] at h
      cases hr : reviseLoop i j (domGet doms y) (domGet doms x) (domGet doms x) with
      | mk r1 r2 =>
        rw [hr] at h
        simp only [Prod.mk.injEq] at h
        obtain ⟨h1, h2⟩ := h
        have hro := reviseLoop_ok i j (domGet doms y) (domGet doms x) (domGet doms x) r2 b
          (by rw [hr, h1])
        refine ⟨hro.1, fun v => ?_⟩
        rw [← h2, hro.2]
        exact domGet_update_get_self doms x v

theorem revise_fst_congr (cw : Crossword) (x y : Variable) (doms1 doms2 : Domains)
    (h : ∀ v, domGet doms1 v = domGet doms2 v) :
    (revise cw x y doms1).1 = (revise cw x y doms2).1 := by
  cases ho : cw.overlaps x y with
  | none => simp [revise, ho]
  | some ij =>
    cases ij with
    | mk i j => simp [revise, ho, h x, h y]

theorem revise_fst_ne_true (cw : Crossword) (x y : Variable) (doms : Domains) :
    (revise cw x y doms).1 ≠ .ok true := by
  intro h
  have h2 : revise cw x y doms = (.ok true, (revise cw x y doms).2) := by
    rw [← h]
  exact absurd (revise_ok cw x y doms _ true h2).1 (by simp)

/-! ### Helper lemmas about `ac3` -/

theorem ac3Loop_subset (cw : Crossword) :
    ∀ (fuel : Nat) (arcs : List Arc) (doms : Domains) r,
      ac3Loop cw fuel arcs doms = some r → ∀ v, domGet r.2.1 v ⊆ domGet doms v := by
  intro fuel
  induction fuel with
  | zero =>
    intro arcs doms r h v
    simp [ac3Loop] at h
  | succ n ih =>
    intro arcs doms r h v
    cases arcs with
    | nil =>
      simp only [ac3Loop, Option.some.injEq] at h
      rw [← h]
      exact List.Subset.refl _
    | cons a rest =>
      cases a with
      | mk x y =>
        cases hr : revise cw x y doms with
        | mk r1 doms1 =>
          have hsub : ∀ u, domGet doms1 u ⊆ domGet doms u := by
            intro u
            have hs := revise_subset cw x y doms u
            rw [hr] at hs
            exact hs
          cases r1 with
          | error e =>
            simp only [ac3Loop, hr, Option.some.injEq] at h
            rw [← h]
            exact hsub v
          | ok b =>
            cases b with
            | true =>
              simp only [ac3Loop, hr] at h
              split at h
              · simp only [Option.some.injEq] at h
                rw [← h]
                exact hsub v
              · exact (ih _ _ _ h v).trans (hsub v)
            | false =>
              simp only [ac3Loop, hr] at h
              exact (ih _ _ _ h v).trans (hsub v)

theorem ac3Loop_ok (cw : Crossword) :
    ∀ (fuel : Nat) (arcs : List Arc) (doms : Domains) (b : Bool) (d' : Domains)
      (a' : List Arc),
      ac3Loop cw fuel arcs doms = some (.ok b, d', a') →
      b = true ∧ a' = [] ∧ (∀ v, domGet d' v = domGet doms v) ∧
        ∀ p ∈ arcs, (revise cw p.1 p.2 doms).1 = .ok false := by
  intro fuel
  induction fuel with
  | zero =>
    intro arcs doms b d' a' h
    simp [ac3Loop] at h
  | succ n ih =>
    intro arcs doms b d' a' h
    cases arcs with
    | nil =>
      simp only [ac3Loop, Option.some.injEq, Prod.mk.injEq, Except.ok.injEq] at h
      obtain ⟨hb, hd, ha⟩ := h
      refine ⟨hb.symm, ha.symm, fun v => by rw [← hd], by simp⟩
    | cons a rest =>
      cases a with
      | mk x y =>
        cases hr : revise cw x y doms with
        | mk r1 doms1 =>
          cases r1 with
          | error e => simp [ac3Loop, hr] at h
          | ok bb =>
            cases bb with
            | true =>
              have hfst : (revise cw x y doms).1 = .ok true := by rw [hr]
              exact absurd hfst (revise_fst_ne_true cw x y doms)
            | false =>
              simp only [ac3Loop, hr] at h
              have hre := revise_ok cw x y doms doms1 false hr
              obtain ⟨ihb, iha, ihpt, iharcs⟩ := ih rest doms1 b d' a' h
              refine ⟨ihb, iha, fun v => by rw [ihpt v, hre.2 v], ?_⟩
              intro p hp
              rcases List.mem_cons.mp hp with h1 | h2
              · rw [h1, hr]
              · rw [revise_fst_congr cw p.1 p.2 doms doms1 (fun v => (hre.2 v).symm)]
                exact iharcs p h2

theorem ac3Loop_fuel (cw : Crossword) :
    ∀ (arcs : List Arc) (fuel : Nat) (doms : Domains), arcs.length < fuel →
      ac3Loop cw fuel arcs doms = ac3Loop cw (arcs.length + 1) arcs doms ∧
      (ac3Loop cw fuel arcs doms).isSome := by
  intro arcs
  induction arcs with
  | nil =>
    intro fuel doms h
    cases fuel with
    | zero => exact absurd h (by simp)
    | succ n => simp [ac3Loop]
  | cons a rest ih =>
    intro fuel doms h
    cases fuel with
    | zero => exact absurd h (by simp)
    | succ n =>
      cases a with
      | mk x y =>
        cases hr : revise cw x y doms with
        | mk r1 doms1 =>
          cases r1 with
          | error e => simp [ac3Loop, hr]
          | ok b =>
            cases b with
            | true =>
              have hfst : (revise cw x y doms).1 = .ok true := by rw [hr]
              exact absurd hfst (revise_fst_ne_true cw x y doms)
            | false =>
              have hlen : rest.length < n := by
                simp only [List.length_cons] at h
                omega
              simp only [ac3Loop, hr, List.length_cons]
              have e1 := (ih n doms1 hlen).1
              have e2 := (ih (rest.length + 1) doms1 (Nat.lt_succ_self _)).1
              constructor
              · rw [e1, e2]
              · rw [e1]
                exact (ih (rest.length + 1) doms1 (Nat.lt_succ_self _)).2

theorem addNeighborArcs_mono (v : Variable) :
    ∀ (ns : List Variable) (arcs : List Arc) (p : Arc),
      p ∈ arcs → p ∈ addNeighborArcs v ns arcs := by
  intro ns
  induction ns with
  | nil =>
    intro arcs p hp
    simpa [addNeighborArcs] using hp
  | cons n rest ih =>
    intro arcs p hp
    simp only [addNeighborArcs]
    by_cases hmem : (n, v) ∈ arcs
    · rw [if_pos hmem]
      exact ih arcs p hp
    · rw [if_neg hmem]
      exact ih _ p (List.mem_append_left _ hp)

theorem addNeighborArcs_mem (v : Variable) :
    ∀ (ns : List Variable) (arcs : List Arc) (n : Variable),
      n ∈ ns → (n, v) ∈ addNeighborArcs v ns arcs := by
  intro ns
  induction ns with
  | nil =>
    intro arcs n hn
    simp at hn
  | cons m rest ih =>
    intro arcs n hn
    rcases List.mem_cons.mp hn with h1 | h2
    · subst h1
      simp only [addNeighborArcs]
      by_cases hmem : (n, v) ∈ arcs
      · rw [if_pos hmem]
        exact addNeighborArcs_mono v rest arcs (n, v) hmem
      · rw [if_neg hmem]
        exact addNeighborArcs_mono v rest _ (n, v) (List.mem_append_right _ (by simp))
    · exact ih _ n h2

theorem buildArcsAux_mono (cw : Crossword) :
    ∀ (vs : List Variable) (arcs : List Arc) (p : Arc),
      p ∈ arcs → p ∈ buildArcsAux cw vs arcs := by
  intro vs
  induction vs with
  | nil =>
    intro arcs p hp
    simpa [buildArcsAux] using hp
  | cons v rest ih =>
    intro arcs p hp
    simp only [buildArcsAux]
    exact ih _ p (addNeighborArcs_mono v _ arcs p hp)

theorem buildArcsAux_mem (cw : Crossword) :
    ∀ (vs : List Variable) (arcs : List Arc) (x y : Variable),
      y ∈ vs → x ∈ cw.neighbors y → (x, y) ∈ buildArcsAux cw vs arcs := by
  intro vs
  induction vs with
  | nil =>
    intro arcs x y hy hx
    simp at hy
  | cons v rest ih =>
    intro arcs x y hy hx
    rcases List.mem_cons.mp hy with h1 | h2
    · subst h1
      simp only [buildArcsAux]
      exact buildArcsAux_mono cw rest _ (x, y) (addNeighborArcs_mem y _ arcs x hx)
    · exact ih _ x y h2 hx

theorem neighbors_mem (cw : Crossword) (x y : Variable) (hx : x ∈ cw.vars)
    (hxy : x ≠ y) (hov : cw.overlaps y x ≠ none) : x ∈ cw.neighbors y := by
  have hs : (cw.overlaps y x).isSome = true := Option.isSome_iff_ne_none.mpr hov
  simp [Crossword.neighbors, List.mem_filter, hx, hxy, hs]

theorem satisfiedLoop_exists (xval : String) (i j : Nat) :
    ∀ (ydom : List String), satisfiedLoop xval i j ydom = .ok true →
      ∃ v, v ∈ ydom ∧ ∃ c, pyStrIndex xval i = .ok c ∧ pyStrIndex v j = .ok c := by
  intro ydom
  induction ydom with
  | nil =>
    intro h
    simp [satisfiedLoop] at h
  | cons v rest ih =>
    intro h
    cases hi : pyStrIndex xval i with
    | error e => simp [satisfiedLoop, hi] at h
    | ok a =>
      cases hj : pyStrIndex v j with
      | error e => simp [satisfiedLoop, hi, hj] at h
      | ok b =>
        by_cases hab : a = b
        · exact ⟨v, List.mem_cons_self _ _, a, rfl, by rw [hj, hab]⟩
        · simp only [satisfiedLoop, hi, hj, if_neg hab] at h
          obtain ⟨u, hu, hc⟩ := ih h
          rw [hi] at hc
          exact ⟨u, List.mem_cons_of_mem _ hu, hc⟩

theorem reviseLoop_ok_false_all (i j : Nat) (ydom : List String) :
    ∀ (iter xdom xdom' : List String),
      reviseLoop i j ydom iter xdom = (.ok false, xdom') →
      ∀ w ∈ iter, satisfiedLoop w i j ydom = .ok true := by
  intro iter
  induction iter with
  | nil =>
    intro xdom xdom' h w hw
    simp at hw
  | cons u rest ih =>
    intro xdom xdom' h w hw
    cases hs : satisfiedLoop u i j ydom with
    | error e => simp [reviseLoop, hs] at h
    | ok sb =>
      cases sb with
      | true =>
        simp only [reviseLoop, hs] at h
        rcases List.mem_cons.mp hw with h1 | h2
        · rw [h1]
          exact hs
        · exact ih _ _ h w h2
      | false => simp [reviseLoop, hs] at h

theorem revise_fst_ok_false_sound (cw : Crossword) (x y : Variable) (doms : Domains)
    (i j : Nat) (hov : cw.overlaps x y = some (i, j))
    (h : (revise cw x y doms).1 = .ok false) :
    ∀ w ∈ domGet doms x, ∃ v, v ∈ domGet doms y ∧
      ∃ c, pyStrIndex w i = .ok c ∧ pyStrIndex v j = .ok c := by
  intro w hw
  have h1 : (reviseLoop i j (domGet doms y) (domGet doms x) (domGet doms x)).1
      = .ok false := by
    simpa [revise, hov] using h
  have h2 : reviseLoop i j (domGet doms y) (domGet doms x) (domGet doms x)
      = (.ok false, (reviseLoop i j (domGet doms y) (domGet doms x) (domGet doms x)).2) := by
    rw [← h1]
  have hall := reviseLoop_ok_false_all i j (domGet doms y) (domGet doms x)
    (domGet doms x) _ h2 w hw
  exact satisfiedLoop_exists w i j (domGet doms y) hall

/-! ### The claims -/

/-- Claim C1: the claim says `solve()` (enforce_node_consistency, then ac3,
then backtrack on the empty assignment) returns either a complete consistent
assignment or `None`, and never terminates any other way. The code cannot:
`backtrack` is the stub `raise NotImplementedError`. On the single-slot
puzzle `cw1` (slot of length 3, vocabulary {"cat"}) node consistency removes
nothing and `ac3` succeeds, yet `solve` propagates `NotImplementedError`
instead of returning an assignment or `None`. -/
theorem solve_raises_not_implemented :
    solve cw1 = some (.error .notImplementedError, [(v1, ["cat"])]) := rfl

/-- Claim C2: the claim says `consistent(assignment)` returns `True` iff the
assigned words are distinct, length-correct, and overlap-compatible. The code
never returns `True`: on the perfectly consistent assignment {v1: "cat"} of
puzzle `cw1` the loop body reaches `values.append[val]`, which subscripts the
bound `append` method and raises `TypeError`; and on the empty assignment the
function falls off the end and returns `None`, not `True`. -/
theorem consistent_raises_type_error :
    consistent cw1 [(v1, "cat")] = .error .typeError ∧
    consistent cw1 ([] : Assignment) = .ok none := ⟨rfl, rfl⟩

/-- Claim C3: the claim says `assignment_complete` returns `True` iff every
slot of the crossword has an assigned word, and in particular `False` on the
empty assignment of a puzzle with at least one slot. The code only scans the
values already present in the dict for `None` and never consults the
crossword's variables, so on the empty assignment of `cw1` — whose slot `v1`
has no assigned word — it returns `True`. -/
theorem assignment_complete_ignores_missing_slots :
    assignment_complete ([] : Assignment) = true ∧
    v1 ∈ cw1.vars ∧ assocGet? ([] : Assignment) v1 = none := ⟨rfl, by decide, rfl⟩

/-- Claim C4: the claim says that after `enforce_node_consistency()` each
slot's domain is exactly the words of the right length (spec scenario 4:
length-4 slot, vocabulary {"cat","dogs","bird"}, expected domain
{"dogs","bird"}). The code removes a word from the very set it is iterating
over, so on `cw4` it removes "cat" and then the iterator raises
`RuntimeError` (set changed size during iteration) instead of returning. -/
theorem enforce_node_consistency_raises_runtime_error :
    enforce_node_consistency cw4 (initDomains cw4) =
      (.error .runtimeError, [(v4, ["dogs", "bird"])]) := rfl

/-- Claim C5: the claim says `revise(x, y)` removes every unsupported word
from `domain(x)` and returns `True` iff something was removed (absent
overlap: no-op returning `False`). The no-overlap half holds (second
conjunct), but whenever a word must be removed the code removes it from the
set it is iterating over and the next iterator call raises `RuntimeError`,
so `revise` never returns `True`: on `cw2` with `domain(va) = {"ab"}`,
`domain(vd) = {"cd"}` and overlap `(0, 0)` it removes "ab" and raises. -/
theorem revise_raises_runtime_error :
    revise cw2 va vd domsBad = (.error .runtimeError, [(va, []), (vd, ["cd"])]) ∧
    revise cw1 v1 v1 [(v1, ["cat"])] = (.ok false, [(v1, ["cat"])]) := ⟨rfl, rfl⟩

/-- Claim C7: the claim says `ac3` returns `False` exactly when a revision
empties some domain, and `True` when the worklist drains. The `return False`
branch is unreachable because `revise` raises `RuntimeError` on any actual
revision before it can report `True`: on `cw2` with incompatible domains
(`domain(va) = {"ab"}`, `domain(vd) = {"cd"}`) the revision that would empty
`domain(vd)` raises instead, and `ac3` propagates the exception rather than
returning `False`. -/
theorem ac3_raises_instead_of_false :
    ac3 cw2 none domsBad =
      some (.error .runtimeError, [(va, ["ab"]), (vd, [])], [(va, vd)]) := rfl

/-- Claim C6: whenever `ac3()` called with no arcs argument returns `True`,
the domains are arc consistent: they are unchanged (first conjunct), and for
every ordered pair of crossing slots `x ≠ y` of the puzzle with overlap
`(i, j)`, every word `w` remaining in `domain(x)` has a supporting word `v`
in `domain(y)` whose `j`-th letter equals `w`'s `i`-th letter (second
conjunct; a pair of crossing slots carries an overlap in both orders of the
symmetric table, whence the two overlap hypotheses). This holds because
`ac3` can only return `True` after every collected arc — which includes
`(x, y)` — was revised with no removal and no exception. In particular
(third conjunct, spec scenario 5): on every puzzle whose single slot has no
crossing neighbors — with one slot the `u != var` test of the neighbor
filter leaves nothing, so the slot is necessarily isolated — the collected
worklist is empty and `ac3()` returns `True` at once with every domain
unchanged. -/
theorem ac3_true_implies_arc_consistent (cw : Crossword) (doms d' : Domains)
    (a' : List Arc) (hrun : ac3 cw none doms = some (.ok true, d', a')) :
    ((∀ v, domGet d' v = domGet doms v) ∧
    ∀ x y i j, x ∈ cw.vars → y ∈ cw.vars → x ≠ y →
      cw.overlaps x y = some (i, j) → cw.overlaps y x ≠ none →
      ∀ w ∈ domGet d' x, ∃ v, v ∈ domGet d' y ∧
        ∃ c, pyStrIndex w i = .ok c ∧ pyStrIndex v j = .ok c) ∧
    ∀ (cw0 : Crossword) (doms0 : Domains) (u : Variable), cw0.vars = [u] →
      ac3 cw0 none doms0 = some (.ok true, doms0, []) := by
  have hloop : ac3Loop cw ((buildArcsAux cw cw.vars []).length + 1)
      (buildArcsAux cw cw.vars []) doms = some (.ok true, d', a') := by
    simpa [ac3] using hrun
  obtain ⟨-, -, hpt, harcs⟩ := ac3Loop_ok cw _ _ _ _ _ _ hloop
  refine ⟨⟨hpt, ?_⟩, ?_⟩
  · intro x y i j hx hy hxy hov hba w hw
    have hmem : (x, y) ∈ buildArcsAux cw cw.vars [] :=
      buildArcsAux_mem cw cw.vars [] x y hy (neighbors_mem cw x y hx hxy hba)
    have hfst := harcs (x, y) hmem
    rw [hpt x] at hw
    obtain ⟨v, hv, hc⟩ := revise_fst_ok_false_sound cw x y doms i j hov hfst w hw
    refine ⟨v, ?_, hc⟩
    rw [hpt y]
    exact hv
  · intro cw0 doms0 u hvars
    have hn : cw0.neighbors u = [] := by
      simp [Crossword.neighbors, hvars]
    have hba : buildArcsAux cw0 cw0.vars [] = [] := by
      rw [hvars]
      simp [buildArcsAux, hn, addNeighborArcs]
    simp [ac3, hba, ac3Loop]

/-- Witness for C6: on the concrete puzzle `cw2` with the already arc
consistent domains `domsOK` (on which `ac3` returns `True`) the word "ab"
of `domain(va)` has a supporting word in `domain(vd)` (first conjunct); and
on the concrete single isolated slot `v1` of `cw1` (spec scenario 5),
`ac3()` returns `True` with the domain store untouched (second conjunct). -/
theorem ac3_true_implies_arc_consistent_witness :
    (∃ v, v ∈ domGet domsOK vd ∧
      ∃ c, pyStrIndex "ab" 0 = .ok c ∧ pyStrIndex v 0 = .ok c) ∧
    ac3 cw1 none [(v1, ["cat"])] = some (.ok true, [(v1, ["cat"])], []) :=
  ⟨(ac3_true_implies_arc_consistent cw2 domsOK domsOK [] (by rfl)).1.2
      va vd 0 0 (by decide) (by decide) (by decide) (by decide) (by decide)
      "ab" (by decide),
    (ac3_true_implies_arc_consistent cw2 domsOK domsOK [] (by rfl)).2
      cw1 [(v1, ["cat"])] v1 (by rfl)⟩

/-- Claim C8: domains only shrink: after `enforce_node_consistency`, after
`revise`, and after `ac3` (whatever their outcome, normal or exceptional),
every slot's domain is a subset of its domain before the call. -/
theorem consistency_ops_shrink_domains (cw : Crossword) (doms : Domains)
    (x y : Variable) (arcs? : Option (List Arc))
    (r : (Except PyErr Bool) × Domains × List Arc)
    (h : ac3 cw arcs? doms = some r) :
    (∀ v, domGet (enforce_node_consistency cw doms).2 v ⊆ domGet doms v) ∧
    (∀ v, domGet (revise cw x y doms).2 v ⊆ domGet doms v) ∧
    (∀ v, domGet r.2.1 v ⊆ domGet doms v) := by
  refine ⟨fun v => encVars_subset cw.vars doms v,
    fun v => revise_subset cw x y doms v, fun v => ?_⟩
  cases arcs? with
  | none => exact ac3Loop_subset cw _ _ _ _ (by simpa [ac3] using h) v
  | some a => exact ac3Loop_subset cw _ _ _ _ (by simpa [ac3] using h) v

/-- Witness for C8 on the concrete puzzle `cw2` with domains `domsBad` (the
run of `ac3` on which raises `RuntimeError` after emptying `domain(vd)`). -/
theorem consistency_ops_shrink_domains_witness :
    (∀ v, domGet (enforce_node_consistency cw2 domsBad).2 v ⊆ domGet domsBad v) ∧
    (∀ v, domGet (revise cw2 va vd domsBad).2 v ⊆ domGet domsBad v) ∧
    (∀ v, domGet (((.error .runtimeError, [(va, ["ab"]), (vd, [])], [(va, vd)]) :
      (Except PyErr Bool) × Domains × List Arc)).2.1 v ⊆ domGet domsBad v) :=
  consistency_ops_shrink_domains cw2 domsBad va vd none
    (.error .runtimeError, [(va, ["ab"]), (vd, [])], [(va, vd)]) (by rfl)

/-- Claim C9: `ac3` terminates on every input: for every crossword, every
domain store and every initial worklist, the embedded `while` loop needs at
most `arcs.length` iterations — any fuel beyond that yields the same answer
(so the fuel value baked into `ac3` is irrelevant) and the loop always
produces a result; consequently `ac3` itself always returns a result,
whether the worklist is supplied or built from the puzzle's crossing
pairs. -/
theorem ac3_loop_terminates (cw : Crossword) (doms : Domains) (arcs : List Arc)
    (fuel : Nat) (h : arcs.length < fuel) :
    ac3Loop cw fuel arcs doms = ac3Loop cw (arcs.length + 1) arcs doms ∧
    (ac3Loop cw fuel arcs doms).isSome ∧ ∀ a?, (ac3 cw a? doms).isSome := by
  refine ⟨(ac3Loop_fuel cw arcs fuel doms h).1, (ac3Loop_fuel cw arcs fuel doms h).2, ?_⟩
  intro a?
  cases a? with
  | none => simpa [ac3] using (ac3Loop_fuel cw _ _ doms (Nat.lt_succ_self _)).2
  | some a => simpa [ac3] using (ac3Loop_fuel cw a _ doms (Nat.lt_succ_self _)).2

/-- Witness for C9 on the concrete puzzle `cw2`, worklist `[(va, vd)]` and
fuel 5. -/
theorem ac3_loop_terminates_witness :
    ac3Loop cw2 5 [(va, vd)] domsBad =
      ac3Loop cw2 ([(va, vd)].length + 1) [(va, vd)] domsBad ∧
    (ac3Loop cw2 5 [(va, vd)] domsBad).isSome ∧
    ∀ a?, (ac3 cw2 a? domsBad).isSome :=
  ac3_loop_terminates cw2 domsBad [(va, vd)] 5 (by decide)

/-- Claim C10: `ac3` called with a supplied `arcs` list mutates that list in
place (modelled by returning its final contents): whenever it returns `True`
the caller's list has been drained to `[]` (and, for this code, the domains
are unchanged), and `ac3` on an explicitly empty list returns `True`
immediately with every domain untouched. -/
theorem ac3_supplied_arcs_emptied (cw : Crossword) (doms : Domains) (arcs : List Arc)
    (d' : Domains) (a' : List Arc)
    (h : ac3 cw (some arcs) doms = some (.ok true, d', a')) :
    a' = [] ∧ (∀ v, domGet d' v = domGet doms v) ∧
    ac3 cw (some []) doms = some (.ok true, doms, []) := by
  have hloop : ac3Loop cw (arcs.length + 1) arcs doms = some (.ok true, d', a') := by
    simpa [ac3] using h
  obtain ⟨-, ha, hpt, -⟩ := ac3Loop_ok cw _ _ _ _ _ _ hloop
  exact ⟨ha, hpt, rfl⟩

/-- Witness for C10 on the concrete puzzle `cw2` with supplied worklist
`[(va, vd)]` and domains `domsOK`, on which `ac3` returns `True`. -/
theorem ac3_supplied_arcs_emptied_witness :
    ([] : List Arc) = [] ∧ (∀ v, domGet domsOK v = domGet domsOK v) ∧
    ac3 cw2 (some []) domsOK = some (.ok true, domsOK, []) :=
  ac3_supplied_arcs_emptied cw2 domsOK [(va, vd)] domsOK [] (by rfl)
